import Mathlib

/-!
Verification of the GoHighLevel MCP repository core against its
natural-language specification.

The development shallowly embeds the two non-trivial parts of the code:

1. the paginated date-filtered message fetcher of
   `src/scripts/fetch_messages_with_date_filter.py`
   (class GHLMessageFetcher), and
2. the OAuth token lifecycle of `src/fastmcp_server.py` (class TokenStore)
   and `src/oauth_client.py` (class GHLOAuthClient).

Timestamps are modelled as natural numbers on a single universal (UTC)
timeline; Python `datetime.min` (the smallest representable aware datetime,
which `_parse_message_date` returns for absent or unparseable dates)
is the value `datetimeMin = 0`.  The remote HTTP collaborators are modelled
as explicit oracle values passed to the embedded functions: the fetch loop
consumes a list of page responses, and the token functions take the outcome
of the single POST they may perform.
-/

namespace GHLMCP

/-! ## Data model of the fetcher (fetch_messages_with_date_filter.py) -/

/-- A message record as far as the fetcher reads it: the parsed date
(`none` when both the `dateAdded` and `date` fields are absent or
unparseable, in which case `_parse_message_date` falls back to
`datetime.min`), and the message type string. -/
structure Message where
  dateField : Option Nat
  mtype : String
deriving DecidableEq

/-- Python `datetime.min.replace(tzinfo=pytz.UTC)`, the smallest
representable timestamp, as a point on the Nat timeline. -/
def datetimeMin : Nat := 0

/-- Embedding of `GHLMessageFetcher._parse_message_date`: the parsed
`dateAdded`/`date` value when present and parseable, else `datetime.min`. -/
def parseMessageDate (m : Message) : Nat :=
  match m.dateField with
  | some d => d
  | none => datetimeMin

/-- Embedding of `GHLMessageFetcher._is_within_date_range`: false when a
start date is given and the date is strictly before it, false when an end
date is given and the date is strictly after it, true otherwise. -/
def isWithinDateRange (d : Nat) (startDate endDate : Option Nat) : Bool :=
  match startDate with
  | some sd => if d < sd then false else
    match endDate with
    | some ed => if ed < d then false else true
    | none => true
  | none =>
    match endDate with
    | some ed => if ed < d then false else true
    | none => true

/-- The early-termination test of the fetch loop:
`if start_date and message_date < start_date`. -/
def beforeStart (startDate : Option Nat) (d : Nat) : Bool :=
  match startDate with
  | some sd => decide (d < sd)
  | none => false

/-- The inner `for message in page_messages` loop of
`fetch_conversation_messages_with_date_filter`: walks the page in order,
stopping (with the `reached_date_limit` flag set) at the first record whose
date is strictly before the start date, and otherwise collecting the
records that pass `_is_within_date_range`.  Returns the collected records
and the flag. -/
def processPage (startDate endDate : Option Nat) :
    List Message → List Message × Bool
  | [] => ([], false)
  | m :: rest =>
    let d := parseMessageDate m
    if beforeStart startDate d then ([], true)
    else
      let p := processPage startDate endDate rest
      (if isWithinDateRange d startDate endDate then m :: p.1 else p.1, p.2)

/-- One remote response to `_fetch_message_page`: either an HTTP 2xx JSON
body (its `messages` list, `lastMessageId`, and `nextPage` flag), or a
request failure (network error or non-2xx status raised by
`raise_for_status`). -/
inductive PageResult where
  | ok (messages : List Message) (lastMessageId : Option String) (nextPage : Bool)
  | err
deriving DecidableEq

/-- Embedding of `GHLMessageFetcher._fetch_message_page`: on success it
returns the messages and the pagination info; on a request exception the
`except` branch returns `([], {})`, and the caller then reads
`nextPage` with default `False` and `lastMessageId` as `None`. -/
def fetchMessagePage : PageResult → List Message × Option String × Bool
  | .ok ms lastId np => (ms, lastId, np)
  | .err => ([], none, false)

/-- The `while has_more and not reached_date_limit` loop of
`fetch_conversation_messages_with_date_filter`, with the remote modelled as
the list of successive page responses (the opaque `lastMessageId` cursor is
absorbed into the response sequence).  The accumulator carries the filtered
messages, `total_fetched` and `pages_fetched`.  When the response list is
exhausted the loop stops with what it has (model boundary: the remote
always answers, so a terminating run never hits this case with
`has_more` still true). -/
def fetchLoop (startDate endDate : Option Nat) :
    List PageResult → List Message → Nat → Nat → List Message × Nat × Nat
  | [], filtered, totalFetched, pagesFetched =>
    (filtered, totalFetched, pagesFetched)
  | r :: rest, filtered, totalFetched, pagesFetched =>
    let page := fetchMessagePage r
    if page.1.isEmpty then (filtered, totalFetched, pagesFetched)
    else
      let pr := processPage startDate endDate page.1
      let filtered' := filtered ++ pr.1
      let totalFetched' := totalFetched + page.1.length
      let pagesFetched' := pagesFetched + 1
      if pr.2 then (filtered', totalFetched', pagesFetched')
      else if page.2.2 then
        fetchLoop startDate endDate rest filtered' totalFetched' pagesFetched'
      else (filtered', totalFetched', pagesFetched')

/-- The metadata dictionary returned by
`fetch_conversation_messages_with_date_filter` (the fields the core
computes; the echoed filter parameters are omitted). -/
structure FetchMetadata where
  totalFetched : Nat
  totalFiltered : Nat
  pagesFetched : Nat
deriving DecidableEq

/-- Comparison used by the final `filtered_messages.sort(key=...)`. -/
def dateLe (a b : Message) : Prop :=
  parseMessageDate a ≤ parseMessageDate b

instance : DecidableRel dateLe := fun a b =>
  inferInstanceAs (Decidable (parseMessageDate a ≤ parseMessageDate b))

instance : IsTotal Message dateLe :=
  ⟨fun a b => Nat.le_total (parseMessageDate a) (parseMessageDate b)⟩

instance : IsTrans Message dateLe :=
  ⟨fun _ _ _ hab hbc => Nat.le_trans hab hbc⟩

/-- Embedding of
`GHLMessageFetcher.fetch_conversation_messages_with_date_filter`: run the
pagination loop from an empty accumulator, then sort the retained messages
ascending by parsed date (Python `list.sort`), and return them with the
metadata. -/
def fetchConversationMessagesWithDateFilter
    (responses : List PageResult) (startDate endDate : Option Nat) :
    List Message × FetchMetadata :=
  let r := fetchLoop startDate endDate responses [] 0 0
  let sorted := List.insertionSort dateLe r.1
  (sorted, ⟨r.2.1, sorted.length, r.2.2⟩)

/-- Builds the response sequence served by an honest remote holding the
given nonempty pages, newest first: every page but the last reports
`nextPage = true`. -/
def mkResponses : List (List Message) → List PageResult
  | [] => []
  | [p] => [.ok p none false]
  | p :: ps => .ok p none true :: mkResponses ps

/-- The optional message-type filter, which the remote applies
(`params['type'] = ','.join(message_types)`). -/
def typeMatches (typeFilter : Option (List String)) (m : Message) : Bool :=
  match typeFilter with
  | some ts => ts.contains m.mtype
  | none => true

/-- Newest-first contract of the remote collection on a stream of records:
parsed dates are non-increasing. -/
def descending (l : List Message) : Prop :=
  l.Pairwise (fun a b => parseMessageDate b ≤ parseMessageDate a)

instance (l : List Message) : Decidable (descending l) :=
  inferInstanceAs (Decidable (l.Pairwise _))

/-- The date-range predicate on a message. -/
def inRange (startDate endDate : Option Nat) (m : Message) : Bool :=
  isWithinDateRange (parseMessageDate m) startDate endDate

/-! ## Token lifecycle (fastmcp_server.py, class TokenStore) -/

/-- The OAuthToken pydantic model: times are seconds on an absolute
timeline (`expires_at` a datetime, `expires_in` the issuer-relative
lifetime). -/
structure OAuthToken where
  accessToken : String
  refreshTokenValue : String
  tokenType : String
  expiresIn : Int
  expiresAt : Int
  scope : String
  locationId : Option String
  userId : Option String
deriving DecidableEq

/-- The fields the refresh path reads from a well-formed 2xx JSON body:
`access_token` and `expires_in` are required (their absence raises and is
caught as a failure), `refresh_token` and `scope` are optional with
fallback to the prior credential. -/
structure RefreshResponseBody where
  accessToken : String
  refreshTokenValue : Option String
  expiresIn : Int
  scope : Option String
deriving DecidableEq

/-- Outcome of the one refresh POST: a well-formed 2xx body, or a failure.
`failure` covers a network error, a non-2xx status raised by
`raise_for_status`, and a malformed body (missing `access_token` or
`expires_in` raises KeyError): every exception lands in the same
`except` branch of `TokenStore.refresh_token`. -/
inductive RefreshOutcome where
  | success (body : RefreshResponseBody)
  | failure
deriving DecidableEq

/-- The in-memory `TokenStore._tokens` map, keyed by user id. -/
def TokenStoreState := String → Option OAuthToken

/-- Embedding of `TokenStore.store_token`: one-step replacement of the
entry for the user. -/
def storeToken (userId : String) (tok : OAuthToken) (s : TokenStoreState) :
    TokenStoreState :=
  fun u => if u = userId then some tok else s u

/-- Embedding of `TokenStore.get_token`. -/
def getToken (s : TokenStoreState) (userId : String) : Option OAuthToken :=
  s userId

/-- The `timedelta(minutes=5)` staleness margin, in seconds. -/
def skewMarginSeconds : Int := 300

/-- The replacement credential built on a successful refresh: new access
token and expiry (`expires_at = now + expires_in`), `refresh_token` and
`scope` falling back to the prior credential when the issuer omits them,
`location_id` and `user_id` carried over from the prior credential, and
the model default token type. -/
def refreshedToken (old : OAuthToken) (body : RefreshResponseBody)
    (now : Int) : OAuthToken :=
  { accessToken := body.accessToken
    refreshTokenValue := body.refreshTokenValue.getD old.refreshTokenValue
    tokenType := "Bearer"
    expiresIn := body.expiresIn
    expiresAt := now + body.expiresIn
    scope := body.scope.getD old.scope
    locationId := old.locationId
    userId := old.userId }

/-- Embedding of `TokenStore.refresh_token` (the ensure-fresh state
machine): returns the credential handed to the caller, the token store
after the call, and how many refresh POSTs were made.  No stored
credential: absent, no call.  Credential still valid
(`now < expires_at - margin`): returned as is, no call.  Otherwise one
POST: on success the fully built replacement is stored in one step and
returned; on failure the store is untouched and absent is returned. -/
def refreshToken (s : TokenStoreState) (userId : String) (now : Int)
    (net : RefreshOutcome) : Option OAuthToken × TokenStoreState × Nat :=
  match s userId with
  | none => (none, s, 0)
  | some token =>
    if now < token.expiresAt - skewMarginSeconds then (some token, s, 0)
    else
      match net with
      | .failure => (none, s, 1)
      | .success body =>
        let newToken := refreshedToken token body now
        (some newToken, storeToken userId newToken s, 1)

/-! ## OAuth client (oauth_client.py, class GHLOAuthClient) -/

/-- The error kinds of `exchange_code_for_token` in the taxonomy of the
specification (the code raises ValueError for the first two and re-raises
the HTTP error for the third). -/
inductive ExchangeError where
  | stateMismatch
  | verifierMissing
  | tokenEndpointError
deriving DecidableEq

/-- Outcome of the one token-endpoint POST of the exchange: a 2xx JSON
body (kept opaque), or an HTTP/network error. -/
inductive HttpOutcome where
  | success (body : String)
  | httpError
deriving DecidableEq

/-- Python truthiness test `not self.code_verifier` on an optional
string: `None` and the empty string are falsy. -/
def pyFalsy : Option String → Bool
  | none => true
  | some s => s.isEmpty

/-- Embedding of `GHLOAuthClient.exchange_code_for_token`: the stored
`self.state` and `self.code_verifier` (both `None` until
`_generate_pkce_params` ran), the received code and state, and the outcome
of the POST the call would make.  Returns the result together with the
number of network calls performed.  The state check
(`state != self.state`) runs first, then the verifier presence check, and
only then the POST. -/
def exchangeCodeForToken (selfState codeVerifier : Option String)
    (authorizationCode receivedState : String) (net : HttpOutcome) :
    Except ExchangeError String × Nat :=
  if some receivedState ≠ selfState then (.error .stateMismatch, 0)
  else if pyFalsy codeVerifier then (.error .verifierMissing, 0)
  else
    match net, authorizationCode with
    | .success body, _ => (.ok body, 1)
    | .httpError, _ => (.error .tokenEndpointError, 1)

/-! ## PKCE generator (oauth_client.py, _generate_pkce_params) -/

/-- The URL-safe base64 alphabet used by `base64.urlsafe_b64encode`. -/
def b64UrlAlphabet : List Char :=
  "ABCDEFGHIJKLMNOPQRSTUVWXYZabcdefghijklmnopqrstuvwxyz0123456789-_".toList

/-- The alphabet character at a 6-bit index. -/
def b64Char (n : Nat) : Char := b64UrlAlphabet.getD n 'A'

/-- `base64.urlsafe_b64encode` over a byte list: 3-byte groups become 4
alphabet characters; a 2-byte tail becomes 3 characters and one `=` pad;
a 1-byte tail becomes 2 characters and two pads. -/
def b64UrlEncode : List Nat → List Char
  | a :: b :: c :: rest =>
    let n := a * 65536 + b * 256 + c
    b64Char (n / 262144 % 64) :: b64Char (n / 4096 % 64) ::
      b64Char (n / 64 % 64) :: b64Char (n % 64) :: b64UrlEncode rest
  | [a, b] =>
    let n := a * 65536 + b * 256
    [b64Char (n / 262144 % 64), b64Char (n / 4096 % 64), b64Char (n / 64 % 64), '=']
  | [a] =>
    let n := a * 65536
    [b64Char (n / 262144 % 64), b64Char (n / 4096 % 64), '=', '=']
  | [] => []

/-- Python `str.rstrip` restricted to the `=` character. -/
def rstripEq (cs : List Char) : List Char :=
  (cs.reverse.dropWhile (fun c => c = '=')).reverse

/-- `base64.urlsafe_b64encode(bs).decode().rstrip('=')`. -/
def b64UrlNoPad (bs : List Nat) : String :=
  String.mk (rstripEq (b64UrlEncode bs))

/-- UTF-8 bytes of one character (standard encoding; the verifier is pure
ASCII so only the first branch is exercised there). -/
def utf8Bytes (c : Char) : List Nat :=
  let n := c.toNat
  if n < 128 then [n]
  else if n < 2048 then [192 + n / 64, 128 + n % 64]
  else if n < 65536 then [224 + n / 4096, 128 + n / 64 % 64, 128 + n % 64]
  else [240 + n / 262144, 128 + n / 4096 % 64, 128 + n / 64 % 64, 128 + n % 64]

/-- `str.encode('utf-8')` over a string. -/
def utf8Encode (s : String) : List Nat := (s.data.map utf8Bytes).flatten

/-- Embedding of `GHLOAuthClient._generate_pkce_params`: the 32 random
bytes from `secrets.token_bytes(32)` and the SHA-256 function (an external
library primitive) are oracle parameters, as is the independently random
state from `secrets.token_urlsafe(32)`.  Returns
(code_verifier, code_challenge, state). -/
def generatePkceParams (randomBytes : List Nat)
    (sha256 : List Nat → List Nat) (stateToken : String) :
    String × String × String :=
  let codeVerifier := b64UrlNoPad randomBytes
  let codeChallenge := b64UrlNoPad (sha256 (utf8Encode codeVerifier))
  (codeVerifier, codeChallenge, stateToken)

/-! ## Authorization URL builder (get_authorization_url) -/

/-- The characters `urllib.parse.quote_plus` never encodes
(letters, digits, and `_ . - ~`). -/
def alwaysSafeChar (c : Char) : Bool :=
  (decide (65 ≤ c.toNat) && decide (c.toNat ≤ 90)) ||
  (decide (97 ≤ c.toNat) && decide (c.toNat ≤ 122)) ||
  (decide (48 ≤ c.toNat) && decide (c.toNat ≤ 57)) ||
  c == '_' || c == '.' || c == '-' || c == '~'

def hexDigits : List Char := "0123456789ABCDEF".toList

/-- Percent-encoding of one byte, uppercase hex. -/
def percentEncodeByte (b : Nat) : List Char :=
  ['%', hexDigits.getD (b / 16) '0', hexDigits.getD (b % 16) '0']

/-- `quote_plus` on one character: safe characters pass through, space
becomes `+`, everything else is percent-encoded byte by byte. -/
def quotePlusChar (c : Char) : List Char :=
  if alwaysSafeChar c then [c]
  else if c = ' ' then ['+']
  else ((utf8Bytes c).map percentEncodeByte).flatten

/-- `urllib.parse.quote_plus` over a string. -/
def quotePlus (s : String) : String :=
  String.mk ((s.data.map quotePlusChar).flatten)

/-- `urllib.parse.urlencode` with its default `quote_via=quote_plus`:
each pair becomes `key=value` with both sides quoted, joined by `&`. -/
def urlencode (params : List (String × String)) : String :=
  String.intercalate "&" (params.map fun p => quotePlus p.1 ++ "=" ++ quotePlus p.2)

/-- The default scope list of `GHLOAuthClient.get_authorization_url`. -/
def defaultScopes : List String :=
  ["contacts.readonly", "contacts.write", "opportunities.readonly",
   "opportunities.write", "calendars.readonly", "calendars.write",
   "conversations.readonly", "workflows.readonly", "locations.readonly",
   "users.readonly"]

/-- Embedding of the authorization URL construction shared by
`GHLOAuthClient.get_authorization_url` and
`GHLOAuthProvider.get_authorization_url`: the params dict in its literal
insertion order, urlencoded and appended to the authorization endpoint.
Total: the code performs no validation of any input. -/
def getAuthorizationUrl (authUrl clientId redirectUri : String)
    (scopes : List String) (stateParam codeChallenge : String) : String :=
  let params := [("response_type", "code"), ("client_id", clientId),
    ("redirect_uri", redirectUri), ("scope", String.intercalate " " scopes),
    ("state", stateParam), ("code_challenge", codeChallenge),
    ("code_challenge_method", "S256")]
  authUrl ++ "?" ++ urlencode params

/-- Demonstration credential used by concrete witnesses: expires at
time 1120 on the absolute timeline. -/
def demoToken : OAuthToken :=
  { accessToken := "at0"
    refreshTokenValue := "rt0"
    tokenType := "Bearer"
    expiresIn := 86400
    expiresAt := 1120
    scope := "contacts.readonly"
    locationId := some "loc0"
    userId := some "default_user" }

/-- Demonstration refresh body omitting the optional fields. -/
def demoBody : RefreshResponseBody :=
  { accessToken := "at1"
    refreshTokenValue := none
    expiresIn := 86400
    scope := none }

/-- Demonstration store holding `demoToken` for the default user. -/
def demoStore : TokenStoreState :=
  fun u => if u = "default_user" then some demoToken else none

/-! ## Unfolding equations of the fetch loop -/

theorem fetchLoop_nil (s e : Option Nat) (f : List Message) (tf pf : Nat) :
    fetchLoop s e [] f tf pf = (f, tf, pf) := rfl

theorem fetchLoop_cons_err (s e : Option Nat) (rest : List PageResult)
    (f : List Message) (tf pf : Nat) :
    fetchLoop s e (.err :: rest) f tf pf = (f, tf, pf) := rfl

theorem fetchLoop_cons_empty (s e : Option Nat) (lastId : Option String)
    (np : Bool) (rest : List PageResult) (f : List Message) (tf pf : Nat) :
    fetchLoop s e (.ok [] lastId np :: rest) f tf pf = (f, tf, pf) := rfl

theorem fetchLoop_cons_stop (s e : Option Nat) (ms : List Message)
    (lastId : Option String) (np : Bool) (rest : List PageResult)
    (f : List Message) (tf pf : Nat) (h : ms ≠ [])
    (hstop : (processPage s e ms).2 = true) :
    fetchLoop s e (.ok ms lastId np :: rest) f tf pf =
      (f ++ (processPage s e ms).1, tf + ms.length, pf + 1) := by
  unfold fetchLoop
  simp [fetchMessagePage, h, hstop]

theorem fetchLoop_cons_next (s e : Option Nat) (ms : List Message)
    (lastId : Option String) (rest : List PageResult)
    (f : List Message) (tf pf : Nat) (h : ms ≠ [])
    (hstop : (processPage s e ms).2 = false) :
    fetchLoop s e (.ok ms lastId true :: rest) f tf pf =
      fetchLoop s e rest (f ++ (processPage s e ms).1) (tf + ms.length) (pf + 1) := by
  conv_lhs => unfold fetchLoop
  simp [fetchMessagePage, h, hstop]

theorem fetchLoop_cons_last (s e : Option Nat) (ms : List Message)
    (lastId : Option String) (rest : List PageResult)
    (f : List Message) (tf pf : Nat) (h : ms ≠ [])
    (hstop : (processPage s e ms).2 = false) :
    fetchLoop s e (.ok ms lastId false :: rest) f tf pf =
      (f ++ (processPage s e ms).1, tf + ms.length, pf + 1) := by
  unfold fetchLoop
  simp [fetchMessagePage, h, hstop]

/-! ## Behaviour of the page scan -/

theorem not_inRange_of_beforeStart {s e : Option Nat} {d : Nat}
    (h : beforeStart s d = true) : isWithinDateRange d s e = false := by
  cases s with
  | none => simp [beforeStart] at h
  | some sd =>
    simp [beforeStart] at h
    simp [isWithinDateRange, h]

theorem processPage_fst (s e : Option Nat) (l : List Message) :
    (processPage s e l).1 =
      (l.takeWhile (fun m => !beforeStart s (parseMessageDate m))).filter
        (inRange s e) := by
  induction l with
  | nil => simp [processPage]
  | cons m rest ih =>
    by_cases h : beforeStart s (parseMessageDate m)
    · simp [processPage, h, List.takeWhile_cons]
    · simp only [processPage, h, List.takeWhile_cons, Bool.not_true, Bool.not_false,
        if_true, if_false, Bool.false_eq_true, ite_false, ite_true]
      rw [List.filter_cons]
      by_cases h2 : inRange s e m
      · simp [inRange] at h2
        simp [h2, ih, inRange]
      · simp [inRange] at h2
        simp [h2, ih, inRange]

theorem processPage_snd (s e : Option Nat) (l : List Message) :
    (processPage s e l).2 = l.any (fun m => beforeStart s (parseMessageDate m)) := by
  induction l with
  | nil => simp [processPage]
  | cons m rest ih =>
    by_cases h : beforeStart s (parseMessageDate m)
    · simp [processPage, h]
    · simp [processPage, h, ih]

theorem mem_dropWhile_beforeStart {s : Option Nat} {l : List Message}
    (hdesc : descending l) {m : Message}
    (hm : m ∈ l.dropWhile (fun x => !beforeStart s (parseMessageDate x))) :
    beforeStart s (parseMessageDate m) = true := by
  have hsub := List.dropWhile_sublist (l := l)
    (fun x => !beforeStart s (parseMessageDate x))
  have hdrop : descending (l.dropWhile (fun x => !beforeStart s (parseMessageDate x))) :=
    List.Pairwise.sublist hsub hdesc
  revert hm hdrop
  match hdl : l.dropWhile (fun x => !beforeStart s (parseMessageDate x)) with
  | [] => intro hm hdrop; cases hm
  | h :: t =>
    intro hm hdrop
    have hne : l.dropWhile (fun x => !beforeStart s (parseMessageDate x)) ≠ [] := by
      rw [hdl]; simp
    have hhead := List.head_dropWhile_not
      (fun x => !beforeStart s (parseMessageDate x)) l hne
    have hh : beforeStart s (parseMessageDate h) = true := by
      have hhd : (l.dropWhile (fun x => !beforeStart s (parseMessageDate x))).head hne = h := by
        simp [hdl]
      rw [hhd] at hhead
      simpa using hhead
    rcases List.mem_cons.mp hm with rfl | hmt
    · exact hh
    · rcases List.pairwise_cons.mp hdrop with ⟨hrel, _⟩
      have hle : parseMessageDate m ≤ parseMessageDate h := hrel m hmt
      cases s with
      | none => simp [beforeStart] at hh
      | some sd =>
        simp [beforeStart] at hh ⊢
        exact Nat.lt_of_le_of_lt hle hh

/-- On a newest-first page the scan retains exactly the in-range records:
everything dropped after the first too-old record is itself too old. -/
theorem processPage_filter_eq {s e : Option Nat} {l : List Message}
    (hdesc : descending l) :
    (processPage s e l).1 = l.filter (inRange s e) := by
  rw [processPage_fst]
  conv_rhs => rw [← List.takeWhile_append_dropWhile
    (p := fun m => !beforeStart s (parseMessageDate m)) (l := l)]
  rw [List.filter_append]
  have hnil : (l.dropWhile (fun m => !beforeStart s (parseMessageDate m))).filter
      (inRange s e) = [] := by
    rw [List.filter_eq_nil_iff]
    intro m hm
    simp [inRange, not_inRange_of_beforeStart (mem_dropWhile_beforeStart hdesc hm)]
  simp [hnil]

/-! ## Behaviour of the pagination loop over an honest remote -/

theorem mkResponses_cons₂ (p q : List Message) (qs : List (List Message)) :
    mkResponses (p :: q :: qs) = .ok p none true :: mkResponses (q :: qs) := rfl

/-- The retained records of a full paginated run are exactly the in-range
records of the whole newest-first collection. -/
theorem fetchLoop_filtered (s e : Option Nat) :
    ∀ (pages : List (List Message)) (acc : List Message) (tf pf : Nat),
      (∀ p ∈ pages, p ≠ []) →
      descending pages.flatten →
      (fetchLoop s e (mkResponses pages) acc tf pf).1 =
        acc ++ pages.flatten.filter (inRange s e) := by
  intro pages
  induction pages with
  | nil => intro acc tf pf _ _; simp [mkResponses, fetchLoop_nil]
  | cons p ps ih =>
    intro acc tf pf hne hdesc
    have hpne : p ≠ [] := hne p (List.mem_cons_self p ps)
    rw [List.flatten_cons] at hdesc ⊢
    rcases List.pairwise_append.mp hdesc with ⟨hdp, hdps, hcross⟩
    cases ps with
    | nil =>
      show (fetchLoop s e [.ok p none false] acc tf pf).1 = _
      by_cases hstop : (processPage s e p).2
      · rw [fetchLoop_cons_stop s e p none false [] acc tf pf hpne hstop]
        simp [processPage_filter_eq hdp]
      · rw [fetchLoop_cons_last s e p none [] acc tf pf hpne (by simpa using hstop)]
        simp [processPage_filter_eq hdp]
    | cons q qs =>
      rw [mkResponses_cons₂]
      by_cases hstop : (processPage s e p).2
      · rw [fetchLoop_cons_stop s e p none true (mkResponses (q :: qs)) acc tf pf hpne hstop]
        rw [processPage_snd] at hstop
        rcases List.any_eq_true.mp hstop with ⟨v, hv, hvb⟩
        have hnil : (q :: qs).flatten.filter (inRange s e) = [] := by
          rw [List.filter_eq_nil_iff]
          intro m hm
          have hle : parseMessageDate m ≤ parseMessageDate v := hcross v hv m hm
          have hb : beforeStart s (parseMessageDate m) = true := by
            cases s with
            | none => simp [beforeStart] at hvb
            | some sd =>
              simp [beforeStart] at hvb ⊢
              exact Nat.lt_of_le_of_lt hle hvb
          simp [inRange, not_inRange_of_beforeStart hb]
        rw [List.filter_append, hnil]
        simp [processPage_filter_eq hdp]
      · rw [fetchLoop_cons_next s e p none (mkResponses (q :: qs)) acc tf pf hpne
          (by simpa using hstop)]
        rw [ih (acc ++ (processPage s e p).1) (tf + p.length) (pf + 1)
          (fun r hr => hne r (List.mem_cons_of_mem p hr)) hdps]
        rw [processPage_filter_eq hdp, List.filter_append, List.append_assoc]

/-- As soon as a page contains a record strictly older than the start date,
no page after it is requested. -/
theorem fetchLoop_pages_le (s e : Option Nat) :
    ∀ (pages : List (List Message)) (acc : List Message) (tf pf : Nat)
      (i : Nat) (hi : i < pages.length),
      (∀ p ∈ pages, p ≠ []) →
      (∃ m ∈ pages.get ⟨i, hi⟩, beforeStart s (parseMessageDate m) = true) →
      (fetchLoop s e (mkResponses pages) acc tf pf).2.2 ≤ pf + i + 1 := by
  intro pages
  induction pages with
  | nil => intro acc tf pf i hi; cases hi
  | cons p ps ih =>
    intro acc tf pf i hi hne hviol
    have hpne : p ≠ [] := hne p (List.mem_cons_self p ps)
    cases i with
    | zero =>
      rcases hviol with ⟨v, hv, hvb⟩
      have hstop : (processPage s e p).2 = true := by
        rw [processPage_snd]
        exact List.any_eq_true.mpr ⟨v, hv, hvb⟩
      cases ps with
      | nil =>
        show (fetchLoop s e [.ok p none false] acc tf pf).2.2 ≤ pf + 0 + 1
        rw [fetchLoop_cons_stop s e p none false [] acc tf pf hpne hstop]
      | cons q qs =>
        rw [mkResponses_cons₂]
        rw [fetchLoop_cons_stop s e p none true (mkResponses (q :: qs)) acc tf pf hpne hstop]
    | succ j =>
      cases ps with
      | nil => simp at hi
      | cons q qs =>
        rw [mkResponses_cons₂]
        by_cases hstop : (processPage s e p).2
        · rw [fetchLoop_cons_stop s e p none true (mkResponses (q :: qs)) acc tf pf hpne hstop]
          show pf + 1 ≤ pf + (j + 1) + 1
          omega
        · rw [fetchLoop_cons_next s e p none (mkResponses (q :: qs)) acc tf pf hpne
            (by simpa using hstop)]
          have hj : j < (q :: qs).length := by simpa using Nat.lt_of_succ_lt_succ hi
          have hb := ih (acc ++ (processPage s e p).1) (tf + p.length) (pf + 1) j hj
            (fun r hr => hne r (List.mem_cons_of_mem p hr))
            (by simpa using hviol)
          omega

/-! ## Claim theorems for the fetcher -/

/-- C3: over a newest-first remote collection served in nonempty pages,
the fetch returns exactly the records whose timestamp lies within the
inclusive [start, end] range (each bound unconstrained when absent) and
that match the type filter the remote applies; it requests no page beyond
the first one containing a record strictly older than the start date; and
the result is sorted ascending by timestamp. -/
theorem fetch_date_filter_spec
    (pages : List (List Message)) (startDate endDate : Option Nat)
    (typeFilter : Option (List String))
    (hne : ∀ p ∈ pages, p ≠ [])
    (hdesc : descending pages.flatten)
    (htype : ∀ m ∈ pages.flatten, typeMatches typeFilter m = true) :
    ((fetchConversationMessagesWithDateFilter (mkResponses pages) startDate endDate).1.Perm
        (pages.flatten.filter (inRange startDate endDate)))
    ∧ List.Sorted dateLe
        (fetchConversationMessagesWithDateFilter (mkResponses pages) startDate endDate).1
    ∧ (∀ m ∈ (fetchConversationMessagesWithDateFilter (mkResponses pages) startDate endDate).1,
        typeMatches typeFilter m = true)
    ∧ (∀ i (hi : i < pages.length),
        (∃ m ∈ pages.get ⟨i, hi⟩, beforeStart startDate (parseMessageDate m) = true) →
        (fetchConversationMessagesWithDateFilter
            (mkResponses pages) startDate endDate).2.pagesFetched ≤ i + 1) := by
  have hloop := fetchLoop_filtered startDate endDate pages [] 0 0 hne hdesc
  rw [List.nil_append] at hloop
  have hperm :
      (fetchConversationMessagesWithDateFilter (mkResponses pages) startDate endDate).1.Perm
        (pages.flatten.filter (inRange startDate endDate)) := by
    show (List.insertionSort dateLe
      (fetchLoop startDate endDate (mkResponses pages) [] 0 0).1).Perm _
    rw [hloop]
    exact List.perm_insertionSort dateLe _
  refine ⟨hperm, ?_, ?_, ?_⟩
  · exact List.sorted_insertionSort dateLe _
  · intro m hm
    have : m ∈ pages.flatten.filter (inRange startDate endDate) :=
      hperm.mem_iff.mp hm
    exact htype m (List.mem_filter.mp this).1
  · intro i hi hex
    have hb := fetchLoop_pages_le startDate endDate pages [] 0 0 i hi hne hex
    show (fetchLoop startDate endDate (mkResponses pages) [] 0 0).2.2 ≤ i + 1
    omega

/-- C3 witness: the spec scenario, messages at t = 10, 9, 8 on the first
page and t = 7 on the second, start date 8: the fetch retains 10, 9, 8,
requests no page after the one with the too-old record, and returns the
messages ascending as [8, 9, 10]. -/
theorem fetch_date_filter_spec_witness :
    (∀ p ∈ [[(⟨some 10, "SMS"⟩ : Message), ⟨some 9, "SMS"⟩, ⟨some 8, "SMS"⟩],
        [⟨some 7, "SMS"⟩]], p ≠ [])
    ∧ descending ([[(⟨some 10, "SMS"⟩ : Message), ⟨some 9, "SMS"⟩, ⟨some 8, "SMS"⟩],
        [⟨some 7, "SMS"⟩]] : List (List Message)).flatten
    ∧ (∀ m ∈ ([[(⟨some 10, "SMS"⟩ : Message), ⟨some 9, "SMS"⟩, ⟨some 8, "SMS"⟩],
        [⟨some 7, "SMS"⟩]] : List (List Message)).flatten, typeMatches (some ["SMS"]) m = true)
    ∧ (((fetchConversationMessagesWithDateFilter
        (mkResponses [[(⟨some 10, "SMS"⟩ : Message), ⟨some 9, "SMS"⟩, ⟨some 8, "SMS"⟩],
          [⟨some 7, "SMS"⟩]]) (some 8) none).1.Perm
          (([[(⟨some 10, "SMS"⟩ : Message), ⟨some 9, "SMS"⟩, ⟨some 8, "SMS"⟩],
            [⟨some 7, "SMS"⟩]] : List (List Message)).flatten.filter (inRange (some 8) none)))
        ∧ List.Sorted dateLe
            (fetchConversationMessagesWithDateFilter
              (mkResponses [[(⟨some 10, "SMS"⟩ : Message), ⟨some 9, "SMS"⟩, ⟨some 8, "SMS"⟩],
                [⟨some 7, "SMS"⟩]]) (some 8) none).1
        ∧ (∀ m ∈ (fetchConversationMessagesWithDateFilter
              (mkResponses [[(⟨some 10, "SMS"⟩ : Message), ⟨some 9, "SMS"⟩, ⟨some 8, "SMS"⟩],
                [⟨some 7, "SMS"⟩]]) (some 8) none).1,
            typeMatches (some ["SMS"]) m = true)
        ∧ (∀ i (hi : i < ([[(⟨some 10, "SMS"⟩ : Message), ⟨some 9, "SMS"⟩, ⟨some 8, "SMS"⟩],
              [⟨some 7, "SMS"⟩]] : List (List Message)).length),
            (∃ m ∈ ([[(⟨some 10, "SMS"⟩ : Message), ⟨some 9, "SMS"⟩, ⟨some 8, "SMS"⟩],
              [⟨some 7, "SMS"⟩]] : List (List Message)).get ⟨i, hi⟩,
              beforeStart (some 8) (parseMessageDate m) = true) →
            (fetchConversationMessagesWithDateFilter
              (mkResponses [[(⟨some 10, "SMS"⟩ : Message), ⟨some 9, "SMS"⟩, ⟨some 8, "SMS"⟩],
                [⟨some 7, "SMS"⟩]]) (some 8) none).2.pagesFetched ≤ i + 1)) :=
  ⟨by decide, by decide, by decide,
    fetch_date_filter_spec _ (some 8) none (some ["SMS"])
      (by decide) (by decide) (by decide)⟩

/-- C7: a page request returning zero records ends iteration without error
and with zero additional records added, even though the remote reported
nextPage = true; the empty page is treated as exhaustion and never retried
(the remaining responses are never consumed).  Stated both mid-pagination
(for an arbitrary accumulator) and for a whole fetch call. -/
theorem fetch_empty_page_terminates (s e : Option Nat) (lastId : Option String)
    (rest : List PageResult) (f : List Message) (tf pf : Nat) :
    fetchLoop s e (.ok [] lastId true :: rest) f tf pf = (f, tf, pf)
    ∧ fetchConversationMessagesWithDateFilter (.ok [] lastId true :: rest) s e =
        ([], ⟨0, 0, 0⟩) :=
  ⟨fetchLoop_cons_empty s e lastId true rest f tf pf, rfl⟩

/-- C1 counterexample: the first page succeeds with one message and the
second page request fails with a network error; the fetch returns a
successful, non-empty result that still contains the record gathered
before the failing page, instead of propagating an error and discarding
the partial results. -/
theorem fetch_page_error_partial_kept :
    fetchConversationMessagesWithDateFilter
        [.ok [⟨some 10, "SMS"⟩] none true, .err] none none =
      ([⟨some 10, "SMS"⟩], ⟨1, 1, 1⟩)
    ∧ (fetchConversationMessagesWithDateFilter
        [.ok [⟨some 10, "SMS"⟩] none true, .err] none none).1 ≠ [] := by
  constructor
  · rfl
  · decide

/-- C1 amended: a network or decode failure on a page request is swallowed
inside the page fetch, whose except branch returns an empty page; the loop
then breaks without error, and the records accumulated before the failure
are kept and returned as a successful result. -/
theorem fetch_page_error_swallowed (s e : Option Nat) (rest : List PageResult)
    (f : List Message) (tf pf : Nat) :
    fetchLoop s e (.err :: rest) f tf pf = (f, tf, pf) :=
  fetchLoop_cons_err s e rest f tf pf

/-- C10 counterexample: with the start-date filter set exactly to the
minimum timestamp (Python datetime.min, a legal ISO input), a record whose
date field is absent is classified as equal to, not strictly older than,
the start date: it is retained in the results and pagination continues to
the next page instead of terminating. -/
theorem missing_date_start_min_kept :
    (fetchConversationMessagesWithDateFilter
        [.ok [⟨none, "SMS"⟩] none true, .ok [⟨some 3, "SMS"⟩] none false]
        (some datetimeMin) none).1 = [⟨none, "SMS"⟩, ⟨some 3, "SMS"⟩]
    ∧ (fetchConversationMessagesWithDateFilter
        [.ok [⟨none, "SMS"⟩] none true, .ok [⟨some 3, "SMS"⟩] none false]
        (some datetimeMin) none).2.pagesFetched = 2 := by
  constructor
  · rfl
  · rfl

/-- C10 amended: a record with an absent or unparseable date field parses
to the minimum timestamp; whenever the supplied start date is strictly
later than that minimum, encountering such a record excludes it from the
results and immediately terminates pagination: the rest of its page and
all later responses are never processed. -/
theorem missing_date_excluded_terminates (m : Message) (ms : List Message)
    (lastId : Option String) (np : Bool) (rest : List PageResult)
    (f : List Message) (tf pf : Nat) (sd : Nat) (e : Option Nat)
    (hm : m.dateField = none) (hsd : datetimeMin < sd) :
    parseMessageDate m = datetimeMin
    ∧ fetchLoop (some sd) e (.ok (m :: ms) lastId np :: rest) f tf pf =
        (f, tf + (ms.length + 1), pf + 1) := by
  have hp : parseMessageDate m = datetimeMin := by simp [parseMessageDate, hm]
  refine ⟨hp, ?_⟩
  have hb : beforeStart (some sd) (parseMessageDate m) = true := by
    simp [beforeStart, hp]
    exact hsd
  have hstop : (processPage (some sd) e (m :: ms)).2 = true := by
    simp [processPage, hb]
  rw [fetchLoop_cons_stop (some sd) e (m :: ms) lastId np rest f tf pf (by simp) hstop]
  have h1 : (processPage (some sd) e (m :: ms)).1 = [] := by
    simp [processPage, hb]
  rw [h1, List.append_nil]
  simp

/-- C10 amended witness: an undated record at the head of a page, start
date 5: it parses to the minimum timestamp, is dropped, and the fetch stops
with the accumulated records untouched. -/
theorem missing_date_excluded_terminates_witness :
    (⟨none, "SMS"⟩ : Message).dateField = none ∧ datetimeMin < 5
    ∧ (parseMessageDate ⟨none, "SMS"⟩ = datetimeMin
      ∧ fetchLoop (some 5) none
          (.ok [⟨none, "SMS"⟩, ⟨some 9, "SMS"⟩] none true :: [.err]) [⟨some 7, "SMS"⟩] 2 1 =
        ([⟨some 7, "SMS"⟩], 2 + (1 + 1), 1 + 1)) :=
  ⟨rfl, by decide,
    missing_date_excluded_terminates ⟨none, "SMS"⟩ [⟨some 9, "SMS"⟩] none true [.err]
      [⟨some 7, "SMS"⟩] 2 1 5 none rfl (by decide)⟩

/-! ## Claim theorems for the token lifecycle -/

/-- C2: the three-step refresh state machine of `TokenStore.refresh_token`:
no stored credential gives absent with zero refresh calls; a stored
credential still valid against the five-minute skew margin is returned
unchanged with zero refresh calls; otherwise exactly one refresh call is
made, storing and returning the fully built replacement on success and
returning absent on failure. -/
theorem ensure_fresh_state_machine (s : TokenStoreState) (userId : String)
    (now : Int) (net : RefreshOutcome) :
    (s userId = none → refreshToken s userId now net = (none, s, 0))
    ∧ (∀ t, s userId = some t → now < t.expiresAt - skewMarginSeconds →
        refreshToken s userId now net = (some t, s, 0))
    ∧ (∀ t, s userId = some t → ¬(now < t.expiresAt - skewMarginSeconds) →
        (refreshToken s userId now net).2.2 = 1
        ∧ (∀ body, net = .success body →
            refreshToken s userId now net =
              (some (refreshedToken t body now),
                storeToken userId (refreshedToken t body now) s, 1))
        ∧ (net = .failure → refreshToken s userId now net = (none, s, 1))) := by
  refine ⟨?_, ?_, ?_⟩
  · intro h
    simp [refreshToken, h]
  · intro t ht hvalid
    simp [refreshToken, ht, hvalid]
  · intro t ht hstale
    refine ⟨?_, ?_, ?_⟩
    · cases net with
      | success body => simp [refreshToken, ht, hstale]
      | failure => simp [refreshToken, ht, hstale]
    · intro body hnet
      subst hnet
      simp [refreshToken, ht, hstale]
    · intro hnet
      subst hnet
      simp [refreshToken, ht, hstale]

/-- C2 witness: the spec examples on the demonstration store.  At
`now = 1000` the stored credential expires at 1120 (now plus two minutes),
which is inside the five-minute margin, so exactly one refresh call is
made; the same machine run at `now = 1120 - 3600` (one hour before
expiry) is also covered by a second application returning the credential
unchanged with zero calls. -/
theorem ensure_fresh_state_machine_witness :
    (demoStore "default_user" = some demoToken
      ∧ ¬((1000 : Int) < demoToken.expiresAt - skewMarginSeconds)
      ∧ ((refreshToken demoStore "default_user" 1000 (.success demoBody)).2.2 = 1
        ∧ (∀ body, RefreshOutcome.success demoBody = .success body →
            refreshToken demoStore "default_user" 1000 (.success demoBody) =
              (some (refreshedToken demoToken body 1000),
                storeToken "default_user" (refreshedToken demoToken body 1000) demoStore, 1))
        ∧ (RefreshOutcome.success demoBody = .failure →
            refreshToken demoStore "default_user" 1000 (.success demoBody) =
              (none, demoStore, 1))))
    ∧ ((-2480 : Int) < demoToken.expiresAt - skewMarginSeconds
      ∧ refreshToken demoStore "default_user" (-2480) .failure =
          (some demoToken, demoStore, 0)) :=
  ⟨⟨rfl, by decide,
      (ensure_fresh_state_machine demoStore "default_user" 1000
        (.success demoBody)).2.2 demoToken rfl (by decide)⟩,
    ⟨by decide,
      (ensure_fresh_state_machine demoStore "default_user" (-2480)
        .failure).2.1 demoToken rfl (by decide)⟩⟩

/-- C5: refresh is atomic and carries identifiers forward.  When the
stored credential is stale, a failing refresh returns absent and leaves
the store untouched; a successful refresh swaps in, in one step, a fully
built replacement whose refresh token falls back to the prior one when
the issuer omits it and whose location and principal identifiers are
those of the prior credential. -/
theorem refresh_atomic_carries_identifiers (s : TokenStoreState)
    (userId : String) (now : Int) (t : OAuthToken)
    (hstored : s userId = some t)
    (hstale : ¬(now < t.expiresAt - skewMarginSeconds)) :
    refreshToken s userId now .failure = (none, s, 1)
    ∧ (∀ body,
        refreshToken s userId now (.success body) =
          (some (refreshedToken t body now),
            storeToken userId (refreshedToken t body now) s, 1)
        ∧ (refreshedToken t body now).refreshTokenValue =
            body.refreshTokenValue.getD t.refreshTokenValue
        ∧ (refreshedToken t body now).locationId = t.locationId
        ∧ (refreshedToken t body now).userId = t.userId) := by
  refine ⟨?_, ?_⟩
  · simp [refreshToken, hstored, hstale]
  · intro body
    refine ⟨?_, rfl, rfl, rfl⟩
    simp [refreshToken, hstored, hstale]

/-- C5 witness: the demonstration store at time 1000 with a body that
omits the refresh token: the failure leg leaves the store as it was, and
the success leg installs the replacement carrying the old refresh token
and identifiers. -/
theorem refresh_atomic_carries_identifiers_witness :
    (demoStore "default_user" = some demoToken
      ∧ ¬((1000 : Int) < demoToken.expiresAt - skewMarginSeconds))
    ∧ (refreshToken demoStore "default_user" 1000 .failure = (none, demoStore, 1)
      ∧ (∀ body,
          refreshToken demoStore "default_user" 1000 (.success body) =
            (some (refreshedToken demoToken body 1000),
              storeToken "default_user" (refreshedToken demoToken body 1000) demoStore, 1)
          ∧ (refreshedToken demoToken body 1000).refreshTokenValue =
              body.refreshTokenValue.getD demoToken.refreshTokenValue
          ∧ (refreshedToken demoToken body 1000).locationId = demoToken.locationId
          ∧ (refreshedToken demoToken body 1000).userId = demoToken.userId)) :=
  ⟨⟨rfl, by decide⟩,
    refresh_atomic_carries_identifiers demoStore "default_user" 1000 demoToken
      rfl (by decide)⟩

/-- C4: the CSRF state check of `exchange_code_for_token` runs before any
network call: a received state different from the stored one fails with
the state-mismatch error and zero network calls; with a matching state
but no verifier in flight the exchange fails with the verifier-missing
error, again with zero network calls. -/
theorem exchange_state_checks_first (selfState codeVerifier : Option String)
    (authorizationCode receivedState : String) (net : HttpOutcome) :
    (selfState ≠ some receivedState →
      exchangeCodeForToken selfState codeVerifier authorizationCode receivedState net =
        (.error .stateMismatch, 0))
    ∧ (selfState = some receivedState → pyFalsy codeVerifier = true →
      exchangeCodeForToken selfState codeVerifier authorizationCode receivedState net =
        (.error .verifierMissing, 0)) := by
  constructor
  · intro h
    have h2 : some receivedState ≠ selfState := fun heq => h heq.symm
    simp [exchangeCodeForToken, h2]
  · intro h hv
    simp [exchangeCodeForToken, h, hv]

/-- C4 witness: received state "evil" against stored state "good" fails
with a state mismatch and zero calls; stored state "good" with no
verifier in flight fails with a missing verifier and zero calls. -/
theorem exchange_state_checks_first_witness :
    ((some "good" : Option String) ≠ some "evil"
      ∧ exchangeCodeForToken (some "good") (some "v") "code0" "evil" (.success "tok") =
          (.error .stateMismatch, 0))
    ∧ ((some "good" : Option String) = some "good" ∧ pyFalsy none = true
      ∧ exchangeCodeForToken (some "good") none "code0" "good" (.success "tok") =
          (.error .verifierMissing, 0)) :=
  ⟨⟨by decide,
      (exchange_state_checks_first (some "good") (some "v") "code0" "evil"
        (.success "tok")).1 (by decide)⟩,
    ⟨rfl, rfl,
      (exchange_state_checks_first (some "good") none "code0" "good"
        (.success "tok")).2 rfl rfl⟩⟩

/-! ## Claim theorems for the PKCE generator -/

theorem getD_mem {l : List Char} {d : Char} (n : Nat) (h : d ∈ l) :
    l.getD n d ∈ l := by
  rcases Nat.lt_or_ge n l.length with hlt | hge
  · rw [List.getD_eq_getElem l d hlt]
    exact List.getElem_mem hlt
  · rw [List.getD_eq_default l d hge]
    exact h

theorem b64Char_mem (n : Nat) : b64Char n ∈ b64UrlAlphabet :=
  getD_mem n (by decide)

theorem b64UrlEncode_length (l : List Nat) :
    (b64UrlEncode l).length = (l.length + 2) / 3 * 4 := by
  match l with
  | [] => rfl
  | [a] => simp [b64UrlEncode]
  | [a, b] => simp [b64UrlEncode]
  | a :: b :: c :: rest =>
    have ih := b64UrlEncode_length rest
    show (b64UrlEncode rest).length + 4 = _
    rw [ih]
    show (rest.length + 2) / 3 * 4 + 4 = (rest.length + 3 + 2) / 3 * 4
    omega

theorem b64UrlEncode_mod3_two (l : List Nat) (h : l.length % 3 = 2) :
    ∃ cs, b64UrlEncode l = cs ++ ['='] ∧ ∀ c ∈ cs, c ∈ b64UrlAlphabet := by
  match l with
  | [] => simp at h
  | [a] => simp at h
  | [a, b] =>
    refine ⟨[b64Char ((a * 65536 + b * 256) / 262144 % 64),
      b64Char ((a * 65536 + b * 256) / 4096 % 64),
      b64Char ((a * 65536 + b * 256) / 64 % 64)], rfl, ?_⟩
    intro c hc
    simp only [List.mem_cons, List.not_mem_nil, or_false] at hc
    rcases hc with rfl | rfl | rfl
    · exact b64Char_mem _
    · exact b64Char_mem _
    · exact b64Char_mem _
  | a :: b :: c :: rest =>
    have hr : rest.length % 3 = 2 := by
      have : (a :: b :: c :: rest).length = rest.length + 3 := by simp
      omega
    obtain ⟨cs, henc, hmem⟩ := b64UrlEncode_mod3_two rest hr
    refine ⟨b64Char ((a * 65536 + b * 256 + c) / 262144 % 64) ::
      b64Char ((a * 65536 + b * 256 + c) / 4096 % 64) ::
      b64Char ((a * 65536 + b * 256 + c) / 64 % 64) ::
      b64Char ((a * 65536 + b * 256 + c) % 64) :: cs, ?_, ?_⟩
    · show _ :: _ :: _ :: _ :: b64UrlEncode rest = _
      rw [henc]
      rfl
    · intro x hx
      simp only [List.mem_cons] at hx
      rcases hx with rfl | rfl | rfl | rfl | hx
      · exact b64Char_mem _
      · exact b64Char_mem _
      · exact b64Char_mem _
      · exact b64Char_mem _
      · exact hmem x hx

theorem rstripEq_append_pad (cs : List Char) (h : ∀ c ∈ cs, c ≠ '=') :
    rstripEq (cs ++ ['=']) = cs := by
  unfold rstripEq
  rw [List.reverse_append]
  show ((['='].reverse ++ cs.reverse).dropWhile fun c => c = '=').reverse = cs
  rw [List.reverse_singleton]
  show ((('=' : Char) :: cs.reverse).dropWhile fun c => c = '=').reverse = cs
  rw [List.dropWhile_cons]
  simp only [decide_True, if_true]
  have hself : cs.reverse.dropWhile (fun c => c = '=') = cs.reverse := by
    rw [List.dropWhile_eq_self_iff]
    intro hl
    have hmemrev : cs.reverse.get ⟨0, hl⟩ ∈ cs :=
      List.mem_reverse.mp (List.get_mem cs.reverse 0 hl)
    simpa using h _ hmemrev
  rw [hself, List.reverse_reverse]

theorem b64UrlNoPad_len32 (bs : List Nat) (h : bs.length = 32) :
    (b64UrlNoPad bs).length = 43
    ∧ ∀ c ∈ (b64UrlNoPad bs).data, c ∈ b64UrlAlphabet := by
  have hm : bs.length % 3 = 2 := by omega
  obtain ⟨cs, henc, hmem⟩ := b64UrlEncode_mod3_two bs hm
  have hne : ∀ c ∈ cs, c ≠ '=' := by
    intro c hc heq
    have hmemc := hmem c hc
    rw [heq] at hmemc
    revert hmemc
    decide
  have hlen : cs.length = 43 := by
    have htot := b64UrlEncode_length bs
    rw [henc, h] at htot
    simp at htot
    omega
  have hstrip : b64UrlNoPad bs = String.mk cs := by
    unfold b64UrlNoPad
    rw [henc, rstripEq_append_pad cs hne]
  rw [hstrip]
  exact ⟨by simpa using hlen, fun c hc => hmem c hc⟩

/-- C6: for the verifier, challenge and state produced by
`_generate_pkce_params` from any 32-byte random draw: the verifier is 43
characters long (hence within the 43 to 128 band mandated by the PKCE
spec) and uses only the URL-safe base64 alphabet; the challenge is
exactly the unpadded URL-safe base64 encoding of the SHA-256 digest of
the UTF-8 encoded verifier; and the challenge is a function of the
verifier alone: any draw producing the same verifier produces the same
challenge. -/
theorem generate_pkce_params_spec (rnd : List Nat)
    (sha : List Nat → List Nat) (st : String) (h32 : rnd.length = 32) :
    (43 ≤ (generatePkceParams rnd sha st).1.length
      ∧ (generatePkceParams rnd sha st).1.length ≤ 128)
    ∧ (∀ c ∈ (generatePkceParams rnd sha st).1.data, c ∈ b64UrlAlphabet)
    ∧ (generatePkceParams rnd sha st).2.1 =
        b64UrlNoPad (sha (utf8Encode (generatePkceParams rnd sha st).1))
    ∧ (∀ rnd2 st2,
        (generatePkceParams rnd2 sha st2).1 = (generatePkceParams rnd sha st).1 →
        (generatePkceParams rnd2 sha st2).2.1 = (generatePkceParams rnd sha st).2.1) := by
  obtain ⟨hlen, hmem⟩ := b64UrlNoPad_len32 rnd h32
  refine ⟨⟨?_, ?_⟩, ?_, rfl, ?_⟩
  · show 43 ≤ (b64UrlNoPad rnd).length
    omega
  · show (b64UrlNoPad rnd).length ≤ 128
    omega
  · exact hmem
  · intro rnd2 st2 hv
    show b64UrlNoPad (sha (utf8Encode (b64UrlNoPad rnd2))) =
      b64UrlNoPad (sha (utf8Encode (b64UrlNoPad rnd)))
    have hv2 : b64UrlNoPad rnd2 = b64UrlNoPad rnd := hv
    rw [hv2]

/-- C6 witness: the all-zero 32-byte draw with a concrete stand-in hash
function. -/
theorem generate_pkce_params_spec_witness :
    (List.replicate 32 0).length = 32
    ∧ ((43 ≤ (generatePkceParams (List.replicate 32 0) (fun _ => List.replicate 32 1) "st").1.length
        ∧ (generatePkceParams (List.replicate 32 0) (fun _ => List.replicate 32 1) "st").1.length ≤ 128)
      ∧ (∀ c ∈ (generatePkceParams (List.replicate 32 0) (fun _ => List.replicate 32 1) "st").1.data,
          c ∈ b64UrlAlphabet)
      ∧ (generatePkceParams (List.replicate 32 0) (fun _ => List.replicate 32 1) "st").2.1 =
          b64UrlNoPad ((fun _ => List.replicate 32 1)
            (utf8Encode (generatePkceParams (List.replicate 32 0)
              (fun _ => List.replicate 32 1) "st").1))
      ∧ (∀ rnd2 st2,
          (generatePkceParams rnd2 (fun _ => List.replicate 32 1) st2).1 =
            (generatePkceParams (List.replicate 32 0) (fun _ => List.replicate 32 1) "st").1 →
          (generatePkceParams rnd2 (fun _ => List.replicate 32 1) st2).2.1 =
            (generatePkceParams (List.replicate 32 0) (fun _ => List.replicate 32 1) "st").2.1)) :=
  ⟨by decide,
    generate_pkce_params_spec (List.replicate 32 0)
      (fun _ => List.replicate 32 1) "st" (by decide)⟩

/-! ## Claim theorems for the authorization URL builder -/

set_option maxRecDepth 8192 in
/-- C9 counterexample: called with an empty client id the builder does not
return an error: it returns an ordinary authorization URL in which the
client_id query parameter is simply empty (no validation exists in either
builder; only `Config.validate` at server startup checks the client id). -/
theorem authorization_url_empty_client_id :
    getAuthorizationUrl "https://services.leadconnectorhq.com/oauth/authorize" ""
        "http://localhost:8000/oauth/callback"
        ["contacts.readonly", "contacts.write"] "st123" "ch456" =
      "https://services.leadconnectorhq.com/oauth/authorize?response_type=code&client_id=&redirect_uri=http%3A%2F%2Flocalhost%3A8000%2Foauth%2Fcallback&scope=contacts.readonly+contacts.write&state=st123&code_challenge=ch456&code_challenge_method=S256" := by
  decide

/-- C9 amended: the builder is a total pure function with no failure mode
at all: for every input, an empty client id included, it returns the
authorization endpoint followed by the urlencoded query carrying exactly
response_type=code, client_id, redirect_uri, the space-joined and
order-preserving scope, state, code_challenge and
code_challenge_method=S256, in that order. -/
theorem authorization_url_structure (authUrl clientId redirectUri : String)
    (scopes : List String) (stateParam codeChallenge : String) :
    getAuthorizationUrl authUrl clientId redirectUri scopes stateParam codeChallenge =
      authUrl ++ "?" ++ String.intercalate "&"
        [quotePlus "response_type" ++ "=" ++ quotePlus "code",
         quotePlus "client_id" ++ "=" ++ quotePlus clientId,
         quotePlus "redirect_uri" ++ "=" ++ quotePlus redirectUri,
         quotePlus "scope" ++ "=" ++ quotePlus (String.intercalate " " scopes),
         quotePlus "state" ++ "=" ++ quotePlus stateParam,
         quotePlus "code_challenge" ++ "=" ++ quotePlus codeChallenge,
         quotePlus "code_challenge_method" ++ "=" ++ quotePlus "S256"] := rfl

end GHLMCP
